import Mathlib

/-!
Verification of the sysdoc document-assembly core against its specification.

The Rust sources embedded here are:
* `src/sysdoc/src/model.rs` — `SectionNumber` (parse / depth / ordering /
  display) and `Section::parse_content` (image, link and CSV-table extraction
  over the markdown tokenizer's event stream);
* `src/sysdoc/src/unified_document.rs` — `UnifiedDocument` and its derived
  counts, `format_display_date`, and `DocumentBuilder`;
* `src/sysdoc/src/source_model/section_metadata.rs` — `SectionMetadata`
  (TOML-backed parse plus the two derived predicates).

Machine integers (`u32`, `i32`, `usize`) are embedded as `Nat` with explicit
range checks at the parse boundary, which is the only place the Rust code can
observe their bounds.
-/

namespace Sysdoc

/-- Splitting a character list on a separator, mirroring Rust's
`str::split(char)`: `""` splits to `[""]`, adjacent separators produce empty
components, and a trailing separator produces a trailing empty component. -/
def splitOnChar (sep : Char) : List Char → List (List Char)
  | [] => [[]]
  | c :: rest =>
    let r := splitOnChar sep rest
    if c = sep then [] :: r
    else
      match r with
      | [] => [[c]]
      | g :: gs => (c :: g) :: gs

/-- Decimal accumulation of a digit-character list, most significant first:
the value a radix-10 string parse produces once all characters are known to be
ASCII digits. -/
def digitsVal (cs : List Char) : Nat :=
  cs.foldl (fun a c => 10 * a + (c.toNat - 48)) 0

/-- Shallow embedding of Rust's radix-10 unsigned integer `from_str` with
exclusive upper bound `bound` (`2^32` for `u32`, `2^31` for the non-negative
range of `i32`, `2^64` for `usize`): an optional leading `+`, then one or more
ASCII digits whose value is below `bound`; anything else yields no value.
The callers in this codebase split on `-` first, so the negative branch of the
signed parses can never fire and is not modelled. -/
def parseRadix10 (bound : Nat) (s : List Char) : Option Nat :=
  let ds := if s.head? = some '+' then s.tail else s
  if ds = [] then none
  else if ds.all Char.isDigit then
    if digitsVal ds < bound then some (digitsVal ds) else none
  else none

/-- Section number representation (`SectionNumber` in `model.rs`): the list of
numeric components parsed from a filename prefix such as `"01.02.03"`. -/
structure SectionNumber where
  parts : List Nat
deriving DecidableEq, Repr

/-- `collect::<Option<Vec<_>>>()`: all the options, when none is `none`. -/
def collectOption : List (Option α) → Option (List α)
  | [] => some []
  | none :: _ => none
  | some a :: rest => (collectOption rest).map (fun l => a :: l)

/-- `SectionNumber::parse` from `model.rs`: split on `.`, parse every
component as a `u32`, and collect — the whole parse yields a value only when
every component does. -/
def SectionNumber.parse (s : String) : Option SectionNumber :=
  (collectOption ((splitOnChar '.' s.data).map (parseRadix10 (2 ^ 32)))).map SectionNumber.mk

/-- `SectionNumber::depth` from `model.rs`: number of parts minus one
(`saturating_sub`, which is `Nat` subtraction). -/
def SectionNumber.depth (n : SectionNumber) : Nat :=
  n.parts.length - 1

/-- Joining chunks with a separator character, mirroring Rust's
`Vec::join`. -/
def joinSep (sep : Char) : List (List Char) → List Char
  | [] => []
  | [x] => x
  | x :: y :: rest => x ++ sep :: joinSep sep (y :: rest)

/-- The `fmt::Display` implementation for `SectionNumber` in `model.rs`:
each component rendered in decimal (`u32::to_string`, i.e. minimal decimal
digits) and joined with `.`. -/
def SectionNumber.display (n : SectionNumber) : String :=
  String.mk (joinSep '.' (n.parts.map (fun p => (Nat.repr p).data)))

/-- The shapes of the markdown tokenizer's low-level events that
`Section::parse_content` in `model.rs` distinguishes (pulldown-cmark's
`Event`): an image opens with `Start(Tag::Image { dest_url, .. })`, a
hyperlink opens with `Start(Tag::Link { dest_url, .. })`, alt text and plain
text arrive as `Text` events, tags close with `End` events, and every other
event falls into the wildcard arm. The tokenizer itself is an external crate;
its event stream is the input here. -/
inductive Event where
  | startImage (dest_url : String)
  | startLink (dest_url : String)
  | text (content : String)
  | endImage
  | endLink
  | other
deriving DecidableEq, Repr

/-- `ImageReference` from `model.rs`: destination URL and alt text of one
image found in the markdown. -/
structure ImageReference where
  url : String
  alt_text : String
deriving DecidableEq, Repr

/-- Whether a destination URL ends with the table-file suffix `.csv`
(`url.ends_with(".csv")` in `model.rs`). -/
def isCsvUrl (url : String) : Bool :=
  ".csv".data.isSuffixOf url.data

/-- The result of `Section::parse_content`: the retained event stream and the
extracted image and table references. -/
structure ParseContentResult where
  events : List Event
  images : List ImageReference
  tables : List String
deriving DecidableEq, Repr

/-- `Section::parse_content` from `model.rs`, as a function of the
tokenizer's event stream: a single forward pass that, for every
`Start(Image)`, pushes an `ImageReference` whose `alt_text` is the empty
string (the code comments it `Will be filled when we see the text` but no
other arm ever writes to it), for every `Start(Link)` whose URL ends in
`.csv` pushes the URL onto the table list, and retains every event in order. -/
def parseContent : List Event → ParseContentResult
  | [] => ⟨[], [], []⟩
  | e :: rest =>
    let r := parseContent rest
    match e with
    | .startImage url =>
        ⟨e :: r.events, ⟨url, ""⟩ :: r.images, r.tables⟩
    | .startLink url =>
        ⟨e :: r.events, r.images, if isCsvUrl url then url :: r.tables else r.tables⟩
    | _ => ⟨e :: r.events, r.images, r.tables⟩

/-- Strict lexicographic order on integer-component lists: the order
`#[derive(PartialOrd, Ord)]` produces for `Vec<u32>` in Rust — compare the
first components, on equality recurse, and a strict prefix sorts before any
extension. -/
def lexLt : List Nat → List Nat → Bool
  | [], [] => false
  | [], _ :: _ => true
  | _ :: _, [] => false
  | a :: as, b :: bs =>
    if a < b then true
    else if a = b then lexLt as bs
    else false

/-- The derived `<` on `SectionNumber` (field-wise derivation reduces to the
order on `parts`). -/
def SectionNumber.lt (a b : SectionNumber) : Bool :=
  lexLt a.parts b.parts

/-- The derived `<=` on `SectionNumber`: `<` or equal (the derived order is
total, so `le` is the reflexive closure of `lt`). -/
def SectionNumber.le (a b : SectionNumber) : Bool :=
  SectionNumber.lt a b || decide (a = b)

/-- `SectionMetadata` from `section_metadata.rs`: the traceability record
decoded from a `sysdoc` fenced code block. All fields default to
absent/`false` (`#[derive(Default)]` with `#[serde(default)]`). -/
structure SectionMetadata where
  section_id : Option String
  traced_ids : Option (List String)
  generate_section_id_to_traced_ids_table : Bool
  generate_traced_ids_to_section_ids_table : Bool
deriving DecidableEq, Repr

/-- The `Default` instance of `SectionMetadata`: every optional field absent,
every boolean `false`. -/
def SectionMetadata.default : SectionMetadata :=
  ⟨none, none, false, false⟩

/-- `SectionMetadata::has_traceability` from `section_metadata.rs`. -/
def SectionMetadata.has_traceability (m : SectionMetadata) : Bool :=
  m.section_id.isSome || m.traced_ids.isSome

/-- `SectionMetadata::requests_table_generation` from `section_metadata.rs`. -/
def SectionMetadata.requests_table_generation (m : SectionMetadata) : Bool :=
  m.generate_section_id_to_traced_ids_table || m.generate_traced_ids_to_section_ids_table

/-- TOML whitespace at line level (space and tab; a carriage return left over
from a CRLF line ending is treated the same way). -/
def isTomlWs (c : Char) : Bool :=
  c = ' ' || c = '\t' || c = '\r'

/-- Characters allowed in a TOML bare key. -/
def isKeyChar (c : Char) : Bool :=
  c.isAlphanum || c = '_' || c = '-'

/-- The values the TOML model distinguishes: basic strings, arrays of basic
strings, booleans and non-negative integers — the shapes that can appear in a
`sysdoc` metadata block. -/
inductive TomlValue where
  | str (s : String)
  | arr (elems : List String)
  | boolean (b : Bool)
  | int (n : Nat)
deriving DecidableEq, Repr

/-- Scan a basic string after its opening quote: the characters up to the
closing quote, and the remainder of the line. No value if the quote is never
closed. -/
def takeBasicString : List Char → Option (List Char × List Char)
  | [] => none
  | c :: rest =>
    if c = '"' then some ([], rest)
    else (takeBasicString rest).map (fun p => (c :: p.1, p.2))

/-- Scan the element list of an array of basic strings after its opening
bracket, with explicit fuel (called with more fuel than characters, so the
fuel never runs out on real input). -/
def takeStringArray (fuel : Nat) (cs : List Char) : Option (List String × List Char) :=
  match fuel with
  | 0 => none
  | fuel + 1 =>
    match (cs.dropWhile isTomlWs) with
    | [] => none
    | c :: rest =>
      if c = ']' then some ([], rest)
      else if c = '"' then
        match takeBasicString rest with
        | none => none
        | some (s, rest2) =>
          match (rest2.dropWhile isTomlWs) with
          | [] => none
          | c2 :: rest3 =>
            if c2 = ',' then
              (takeStringArray fuel rest3).map (fun p => (String.mk s :: p.1, p.2))
            else if c2 = ']' then some ([String.mk s], rest3)
            else none
      else none

/-- Parse one TOML value at the front of a line remainder, returning the
value and the unconsumed characters. -/
def takeValue (cs : List Char) : Option (TomlValue × List Char) :=
  match cs with
  | [] => none
  | c :: rest =>
    if c = '"' then
      (takeBasicString rest).map (fun p => (TomlValue.str (String.mk p.1), p.2))
    else if c = '[' then
      (takeStringArray (rest.length + 1) rest).map (fun p => (TomlValue.arr p.1, p.2))
    else
      let tok := cs.takeWhile (fun ch => ch.isAlphanum)
      let rest' := cs.dropWhile (fun ch => ch.isAlphanum)
      if tok = "true".data then some (TomlValue.boolean true, rest')
      else if tok = "false".data then some (TomlValue.boolean false, rest')
      else if tok ≠ [] && tok.all Char.isDigit then some (TomlValue.int (digitsVal tok), rest')
      else none

/-- Classification of one line of a metadata block. -/
inductive LineParse where
  | blank
  | assign (key : String) (value : TomlValue)
  | malformed
deriving DecidableEq, Repr

/-- Classify one line: blank lines and `#` comments carry nothing, a
well-formed `key = value` line (optionally followed by a comment) is an
assignment, and anything else is a TOML syntax error. -/
def classifyLine (line : List Char) : LineParse :=
  let l := line.dropWhile isTomlWs
  match l with
  | [] => .blank
  | c :: _ =>
    if c = '#' then .blank
    else
      let key := l.takeWhile isKeyChar
      let afterKey := (l.dropWhile isKeyChar).dropWhile isTomlWs
      if key = [] then .malformed
      else
        match afterKey with
        | [] => .malformed
        | c2 :: rest2 =>
          if c2 = '=' then
            match takeValue (rest2.dropWhile isTomlWs) with
            | none => .malformed
            | some (v, rest3) =>
              match rest3.dropWhile isTomlWs with
              | [] => .assign (String.mk key) v
              | c3 :: _ => if c3 = '#' then .assign (String.mk key) v else .malformed
          else .malformed

/-- Apply one `key = value` assignment to the record being deserialized:
the four known fields require their declared type (a serde type mismatch is a
parse error), and any other key is accepted and ignored (serde's default
behaviour for unknown fields). -/
def applyAssign (m : SectionMetadata) (key : String) (v : TomlValue) :
    Option SectionMetadata :=
  if key = "section_id" then
    match v with
    | .str s => some { m with section_id := some s }
    | _ => none
  else if key = "traced_ids" then
    match v with
    | .arr l => some { m with traced_ids := some l }
    | _ => none
  else if key = "generate_section_id_to_traced_ids_table" then
    match v with
    | .boolean b => some { m with generate_section_id_to_traced_ids_table := b }
    | _ => none
  else if key = "generate_traced_ids_to_section_ids_table" then
    match v with
    | .boolean b => some { m with generate_traced_ids_to_section_ids_table := b }
    | _ => none
  else some m

/-- Deserialize a list of lines into a `SectionMetadata`, tracking the keys
already seen (TOML rejects a key defined twice). -/
def processLines : List (List Char) → SectionMetadata → List String →
    Except String SectionMetadata
  | [], m, _ => .ok m
  | line :: rest, m, seen =>
    match classifyLine line with
    | .blank => processLines rest m seen
    | .malformed => .error "TOML parse error"
    | .assign key v =>
      if key ∈ seen then .error "duplicate key"
      else
        match applyAssign m key v with
        | some m' => processLines rest m' (key :: seen)
        | none => .error "invalid type for key"

/-- `SectionMetadata::parse` from `section_metadata.rs`: `toml::from_str`
into the `#[serde(default)]` record, modelled line by line for the
key/value subset of TOML a `sysdoc` metadata block uses. -/
def SectionMetadata.parse (content : String) : Except String SectionMetadata :=
  processLines (splitOnChar '\n' content.data) SectionMetadata.default []

/-- `Person` from `unified_document.rs`. -/
structure Person where
  name : String
  email : String
deriving DecidableEq, Repr

/-- `RevisionHistoryEntry` from `unified_document.rs`. -/
structure RevisionHistoryEntry where
  version : String
  date : String
  description : String
deriving DecidableEq, Repr

/-- `DocumentMetadata` from `unified_document.rs` (paths kept as strings). -/
structure DocumentMetadata where
  system_id : Option String
  document_id : String
  title : String
  subtitle : Option String
  description : Option String
  doc_type : String
  standard : String
  template : String
  owner : Person
  approver : Person
  version : Option String
  modified : Option String
  revision_history : List RevisionHistoryEntry
  protection_mark : Option String
  title_page_background : Option String
  heading_color : String
deriving DecidableEq, Repr

/-- Modelled from the spec: `MarkdownBlock` is declared in the `source_model`
module, which is not among the provided sources. §3 of the spec describes it
as a tagged variant over text, image (URL and alt text), table reference
(path) and code block (language and body), with further variants passing
through opaquely. -/
inductive MarkdownBlock where
  | text (s : String)
  | image (url alt_text : String)
  | tableReference (path : String)
  | codeBlock (language content : String)
  | passthrough
deriving DecidableEq, Repr

/-- Modelled from the spec: `MarkdownSection` is declared in the
`source_model` module, which is not among the provided sources; the field
list is the one visible at the construction site in the
`unified_document.rs` tests (heading level and text, section number, origin
line, source path, ordered content blocks, optional metadata). -/
structure MarkdownSection where
  heading_level : Nat
  heading_text : String
  section_number : SectionNumber
  line_number : Nat
  source_file : String
  content : List MarkdownBlock
  metadata : Option SectionMetadata
deriving DecidableEq, Repr

/-- Modelled from the spec: `TableSource` is declared in the `source_model`
module, which is not among the provided sources; §3 of the spec describes it
as the path of a CSV-backed table together with the owning section. -/
structure TableSource where
  path : String
  section_number : SectionNumber
deriving DecidableEq, Repr

/-- `UnifiedDocument` from `unified_document.rs`. -/
structure UnifiedDocument where
  metadata : DocumentMetadata
  root : String
  sections : List MarkdownSection
  tables : List TableSource
deriving DecidableEq, Repr

/-- `UnifiedDocument::table_count` from `unified_document.rs`. -/
def UnifiedDocument.table_count (d : UnifiedDocument) : Nat :=
  d.tables.length

/-- `UnifiedDocument::section_count` from `unified_document.rs`. -/
def UnifiedDocument.section_count (d : UnifiedDocument) : Nat :=
  d.sections.length

/-- `UnifiedDocument::word_count` from `unified_document.rs`:
`self.sections.iter().map(|s| s.content.len()).sum()` — the length of each
section's content-block list, summed, as the code's own comment notes
(`currently counts content blocks, not actual words`). -/
def UnifiedDocument.word_count (d : UnifiedDocument) : Nat :=
  (d.sections.map (fun s => s.content.length)).sum

/-- `UnifiedDocument::image_count` from `unified_document.rs`: the number of
`Image`-variant blocks across every section's content. -/
def UnifiedDocument.image_count (d : UnifiedDocument) : Nat :=
  ((d.sections.map (fun s => s.content)).flatten.filter
    (fun b => match b with | .image _ _ => true | _ => false)).length

/-- The month-abbreviation table of `format_display_date` in
`unified_document.rs`. -/
def MONTHS : List String :=
  ["Jan", "Feb", "Mar", "Apr", "May", "Jun",
   "Jul", "Aug", "Sep", "Oct", "Nov", "Dec"]

/-- `format_display_date` from `unified_document.rs`: take the substring
before the first `T`, split it on `-`; when at least year/month/day are
present, the three parse as `i32`/`usize`/`u32`, and the month lies in
`1..=12`, render `"{day} {MONTHS[month-1]} {year}"`; in every other case
return the input unchanged. -/
def format_display_date (iso_date : String) : String :=
  let date_part := (splitOnChar 'T' iso_date.data).headD []
  match splitOnChar '-' date_part with
  | y :: mo :: d :: _ =>
    match parseRadix10 (2 ^ 31) y, parseRadix10 (2 ^ 64) mo, parseRadix10 (2 ^ 32) d with
    | some year, some month, some day =>
      if 1 ≤ month ∧ month ≤ 12 then
        Nat.repr day ++ " " ++ MONTHS.getD (month - 1) "" ++ " " ++ Nat.repr year
      else iso_date
    | _, _, _ => iso_date
  | _ => iso_date

/-- `DocumentBuilder` from `unified_document.rs`. -/
structure DocumentBuilder where
  metadata : DocumentMetadata
  root : String
  sections : List MarkdownSection
  tables : List TableSource
deriving DecidableEq, Repr

/-- `DocumentBuilder::new` from `unified_document.rs`. -/
def DocumentBuilder.new (metadata : DocumentMetadata) (root : String) :
    DocumentBuilder :=
  ⟨metadata, root, [], []⟩

/-- `DocumentBuilder::add_section` from `unified_document.rs`: append, with
no ordering or uniqueness check of its own. -/
def DocumentBuilder.add_section (b : DocumentBuilder) (s : MarkdownSection) :
    DocumentBuilder :=
  { b with sections := b.sections ++ [s] }

/-- `DocumentBuilder::add_table` from `unified_document.rs`. -/
def DocumentBuilder.add_table (b : DocumentBuilder) (t : TableSource) :
    DocumentBuilder :=
  { b with tables := b.tables ++ [t] }

/-- `DocumentBuilder::build` from `unified_document.rs`: move the accumulated
fields into the finished document, unchanged. -/
def DocumentBuilder.build (b : DocumentBuilder) : UnifiedDocument :=
  ⟨b.metadata, b.root, b.sections, b.tables⟩

/-- The non-strict section order used for sorting during assembly: the
derived `<=` on the sections' `SectionNumber`s. -/
def sectionLe (a b : MarkdownSection) : Prop :=
  SectionNumber.le a.section_number b.section_number = true

instance : DecidableRel sectionLe :=
  fun _ _ => instDecidableEqBool _ _

/-- Whether some pair of sections carries the same `SectionNumber`. -/
def hasDuplicateNumbers : List MarkdownSection → Bool
  | [] => false
  | s :: rest =>
    rest.any (fun t => decide (s.section_number = t.section_number)) ||
      hasDuplicateNumbers rest

/-- The table references of one section's content blocks, paired with the
owning section's number (spec §4.4: collect every `TableReference` in
first-discovery order, recording the owning section). -/
def sectionTables (s : MarkdownSection) : List TableSource :=
  s.content.filterMap
    (fun b => match b with
      | .tableReference p => some ⟨p, s.section_number⟩
      | _ => none)

/-- Modelled from the spec: the Document Assembler's sort-and-merge step
(§4.4) is not among the provided sources — `DocumentBuilder::build` is
infallible and `add_section` merely appends, so the sorting, the
`duplicate section numbering` failure and the table walk happen in the
orchestration that feeds the builder. Per the spec: sort all sections
ascending by `SectionNumber`, fail with a `duplicate section numbering`
error when two sections compare equal, collect every table reference, and
finalize through the builder. -/
def assembleDocument (metadata : DocumentMetadata) (root : String)
    (sections : List MarkdownSection) : Except String UnifiedDocument :=
  if hasDuplicateNumbers sections then .error "duplicate section numbering"
  else
    let sorted := List.insertionSort sectionLe sections
    let b := sorted.foldl DocumentBuilder.add_section (DocumentBuilder.new metadata root)
    let b := ((sorted.map sectionTables).flatten).foldl DocumentBuilder.add_table b
    .ok b.build

/-! Derived definitions used by the verification below. -/

/-- The big-endian decimal digit characters of `n`: the characterization of
`Nat.repr`'s output proved in `repr_data_eq_decChars`. -/
def decChars (n : Nat) : List Char :=
  if n = 0 then ['0'] else ((Nat.digits 10 n).map Nat.digitChar).reverse

/-- The table path an event contributes: the destination of a `Start(Link)`
whose URL ends in `.csv`, and nothing otherwise. -/
def csvLinkOf : Event → Option String
  | .startLink url => if isCsvUrl url then some url else none
  | _ => none

/-- The key a metadata line assigns, if it is an assignment line. -/
def lineKey (line : List Char) : Option String :=
  match classifyLine line with
  | .assign k _ => some k
  | _ => none

/-- A fixed document-metadata value for concrete instantiations. -/
def sampleMetadata : DocumentMetadata :=
  { system_id := none
    document_id := "TEST-001"
    title := "Test Document"
    subtitle := none
    description := none
    doc_type := "SDD"
    standard := "DI-IPSC-81435B"
    template := "sdd-standard-v1"
    owner := { name := "John Doe", email := "john@example.com" }
    approver := { name := "Jane Smith", email := "jane@example.com" }
    version := none
    modified := none
    revision_history := []
    protection_mark := none
    title_page_background := none
    heading_color := "#2B579A" }

/-- A minimal concrete section carrying a given section number. -/
def sampleSection (parts : List Nat) : MarkdownSection :=
  { heading_level := 1
    heading_text := "T"
    section_number := ⟨parts⟩
    line_number := 1
    source_file := "t.md"
    content := []
    metadata := none }

/-! General lemmas about the component order. -/

theorem lexLt_cons_iff (a b : Nat) (as bs : List Nat) :
    lexLt (a :: as) (b :: bs) = true ↔ a < b ∨ (a = b ∧ lexLt as bs = true) := by
  by_cases h1 : a < b
  · simp [lexLt, h1]
  · by_cases h2 : a = b
    · simp [lexLt, h1, h2]
    · simp [lexLt, h1, h2]

theorem lexLt_irrefl : ∀ l : List Nat, lexLt l l = false
  | [] => rfl
  | a :: as => by simp [lexLt, lexLt_irrefl as]

theorem lexLt_trans :
    ∀ x y z : List Nat, lexLt x y = true → lexLt y z = true → lexLt x z = true
  | [], y, z, hxy, hyz => by
    cases y with
    | nil => simp [lexLt] at hxy
    | cons b bs =>
      cases z with
      | nil => simp [lexLt] at hyz
      | cons c cs => simp [lexLt]
  | _ :: _, [], _, hxy, _ => by simp [lexLt] at hxy
  | _ :: _, _ :: _, [], _, hyz => by simp [lexLt] at hyz
  | a :: as, b :: bs, c :: cs, hxy, hyz => by
    refine (lexLt_cons_iff _ _ _ _).mpr ?_
    rcases (lexLt_cons_iff a b as bs).mp hxy with h | ⟨he, h⟩
    · rcases (lexLt_cons_iff b c bs cs).mp hyz with h' | ⟨he', h'⟩
      · exact Or.inl (h.trans h')
      · exact Or.inl (he' ▸ h)
    · rcases (lexLt_cons_iff b c bs cs).mp hyz with h' | ⟨he', h'⟩
      · exact Or.inl (he ▸ h')
      · exact Or.inr ⟨he.trans he', lexLt_trans as bs cs h h'⟩

theorem lexLt_total :
    ∀ x y : List Nat, lexLt x y = true ∨ x = y ∨ lexLt y x = true
  | [], [] => Or.inr (Or.inl rfl)
  | [], _ :: _ => Or.inl rfl
  | _ :: _, [] => Or.inr (Or.inr rfl)
  | a :: as, b :: bs => by
    rcases Nat.lt_trichotomy a b with h | rfl | h
    · exact Or.inl ((lexLt_cons_iff _ _ _ _).mpr (Or.inl h))
    · rcases lexLt_total as bs with h | rfl | h
      · exact Or.inl ((lexLt_cons_iff _ _ _ _).mpr (Or.inr ⟨rfl, h⟩))
      · exact Or.inr (Or.inl rfl)
      · exact Or.inr (Or.inr ((lexLt_cons_iff _ _ _ _).mpr (Or.inr ⟨rfl, h⟩)))
    · exact Or.inr (Or.inr ((lexLt_cons_iff _ _ _ _).mpr (Or.inl h)))

theorem lexLt_asymm (x y : List Nat) (h : lexLt x y = true) : lexLt y x = false := by
  by_contra hc
  have hyx : lexLt y x = true := by
    cases hxy : lexLt y x with
    | false => exact absurd hxy hc
    | true => rfl
  have := lexLt_trans x y x h hyx
  rw [lexLt_irrefl] at this
  exact Bool.false_ne_true this

theorem lexLt_of_strict_initial_segment :
    ∀ as bs : List Nat, as <+: bs → as ≠ bs → lexLt as bs = true := by
  intro as
  induction as with
  | nil =>
    intro bs _ hne
    cases bs with
    | nil => exact absurd rfl hne
    | cons b bs' => simp [lexLt]
  | cons a as' ih =>
    intro bs hpre hne
    obtain ⟨t, ht⟩ := hpre
    subst ht
    refine (lexLt_cons_iff _ _ _ _).mpr (Or.inr ⟨rfl, ?_⟩)
    refine ih (as' ++ t) ⟨t, rfl⟩ ?_
    intro he
    exact hne (by rw [List.cons_append, ← he])

theorem sectionNumber_eq_iff (x y : SectionNumber) : x = y ↔ x.parts = y.parts := by
  cases x; cases y; simp

/-- C3: the derived order on `SectionNumber` is total and purely
component-wise over the integer sequences: on cons cells it compares the
first components and recurses on equality, a strict prefix sorts before its
extensions, it is transitive and asymmetric, any two section numbers are
comparable, and the claim's concrete examples hold with integer (not string)
comparison: `parse "01.01" < parse "01.02" < parse "02.01"` and
`parse "2.1" > parse "1.10"`. -/
theorem sectionNumber_order_spec :
    (∀ (a b : Nat) (as bs : List Nat),
      lexLt (a :: as) (b :: bs) = true ↔ a < b ∨ (a = b ∧ lexLt as bs = true)) ∧
    (∀ as bs : List Nat, as <+: bs → as ≠ bs → lexLt as bs = true) ∧
    (∀ x y z : SectionNumber,
      SectionNumber.lt x y = true → SectionNumber.lt y z = true →
      SectionNumber.lt x z = true) ∧
    (∀ x y : SectionNumber, SectionNumber.lt x y = true → SectionNumber.lt y x = false) ∧
    (∀ x y : SectionNumber,
      SectionNumber.lt x y = true ∨ x = y ∨ SectionNumber.lt y x = true) ∧
    (SectionNumber.parse "01.01" = some ⟨[1, 1]⟩ ∧
     SectionNumber.parse "01.02" = some ⟨[1, 2]⟩ ∧
     SectionNumber.parse "02.01" = some ⟨[2, 1]⟩ ∧
     SectionNumber.lt ⟨[1, 1]⟩ ⟨[1, 2]⟩ = true ∧
     SectionNumber.lt ⟨[1, 2]⟩ ⟨[2, 1]⟩ = true ∧
     SectionNumber.parse "2.1" = some ⟨[2, 1]⟩ ∧
     SectionNumber.parse "1.10" = some ⟨[1, 10]⟩ ∧
     SectionNumber.lt ⟨[1, 10]⟩ ⟨[2, 1]⟩ = true ∧
     SectionNumber.lt ⟨[2, 1]⟩ ⟨[1, 10]⟩ = false) := by
  refine ⟨lexLt_cons_iff, lexLt_of_strict_initial_segment, ?_, ?_, ?_, by decide⟩
  · intro x y z hxy hyz
    exact lexLt_trans x.parts y.parts z.parts hxy hyz
  · intro x y hxy
    exact lexLt_asymm x.parts y.parts hxy
  · intro x y
    rcases lexLt_total x.parts y.parts with h | h | h
    · exact Or.inl h
    · exact Or.inr (Or.inl ((sectionNumber_eq_iff x y).mpr h))
    · exact Or.inr (Or.inr h)

/-- Witness for C3 at concrete inputs: transitivity, asymmetry and the
strict-prefix rule instantiated. -/
theorem sectionNumber_order_spec_witness :
    lexLt [1] [1, 1] = true ∧ SectionNumber.lt ⟨[1]⟩ ⟨[2]⟩ = true ∧
    SectionNumber.lt ⟨[2]⟩ ⟨[1]⟩ = false ∧ SectionNumber.lt ⟨[1]⟩ ⟨[3]⟩ = true :=
  ⟨sectionNumber_order_spec.2.1 [1] [1, 1] ⟨[1], rfl⟩ (by decide),
   sectionNumber_order_spec.1 1 2 [] [] |>.mpr (Or.inl (by decide)),
   sectionNumber_order_spec.2.2.2.1 ⟨[1]⟩ ⟨[2]⟩
     (sectionNumber_order_spec.1 1 2 [] [] |>.mpr (Or.inl (by decide))),
   sectionNumber_order_spec.2.2.1 ⟨[1]⟩ ⟨[2]⟩ ⟨[3]⟩
     (sectionNumber_order_spec.1 1 2 [] [] |>.mpr (Or.inl (by decide)))
     (sectionNumber_order_spec.1 2 3 [] [] |>.mpr (Or.inl (by decide)))⟩

/-- C2, evaluation at the failing input: for the tokenizer's event sequence
of the markdown `![diagram](img.png)` — image start, alt text as an
intervening text event, image end — `parse_content` produces exactly one
image reference carrying the destination URL, but its `alt_text` is the
empty string: no arm of the event loop ever stores the intervening text,
although the code's own comment at the push site says the alt text `Will be
filled when we see the text`. -/
theorem parse_content_drops_alt_text :
    parseContent [.startImage "img.png", .text "diagram", .endImage] =
      { events := [.startImage "img.png", .text "diagram", .endImage],
        images := [{ url := "img.png", alt_text := "" }],
        tables := [] } := by
  decide

/-- C9: during `parse_content`, the collected table list is exactly the
`Start(Link)` destinations ending in `.csv`, in stream order; every event —
links included — is retained in the section's event stream; prepending a
`.csv` link adds exactly its path, and prepending a non-`.csv` link adds
nothing. -/
theorem csv_links_collected :
    (∀ stream, (parseContent stream).events = stream) ∧
    (∀ stream, (parseContent stream).tables = stream.filterMap csvLinkOf) ∧
    (∀ url stream, isCsvUrl url = true →
      (parseContent (Event.startLink url :: stream)).tables =
        url :: (parseContent stream).tables) ∧
    (∀ url stream, isCsvUrl url = false →
      (parseContent (Event.startLink url :: stream)).tables =
        (parseContent stream).tables) := by
  have hev : ∀ stream, (parseContent stream).events = stream := by
    intro stream
    induction stream with
    | nil => rfl
    | cons e rest ih => cases e <;> simp [parseContent, ih]
  have htab : ∀ stream, (parseContent stream).tables = stream.filterMap csvLinkOf := by
    intro stream
    induction stream with
    | nil => rfl
    | cons e rest ih =>
      cases e with
      | startLink url =>
        by_cases h : isCsvUrl url = true
        · simp [parseContent, csvLinkOf, h, ih]
        · simp only [Bool.not_eq_true] at h
          simp [parseContent, csvLinkOf, h, ih]
      | _ => simp [parseContent, csvLinkOf, ih]
  refine ⟨hev, htab, ?_, ?_⟩
  · intro url stream h
    simp [parseContent, h]
  · intro url stream h
    simp [parseContent, h]

/-- Witness for C9 at concrete inputs: a `.csv` link contributes its path to
the table list, a `.png` link contributes nothing. -/
theorem csv_links_collected_witness :
    isCsvUrl "tables/data.csv" = true ∧
    (parseContent [Event.startLink "tables/data.csv"]).tables = ["tables/data.csv"] ∧
    isCsvUrl "image.png" = false ∧
    (parseContent [Event.startLink "image.png"]).tables = [] := by
  refine ⟨by decide, ?_, by decide, ?_⟩
  · have h := csv_links_collected.2.2.1 "tables/data.csv" [] (by decide)
    simpa using h
  · have h := csv_links_collected.2.2.2 "image.png" [] (by decide)
    simpa using h

/-- C6: `word_count` is the sum over the sections of the size of each
section's content (the length of its block list — the code's comment itself
notes it `currently counts content blocks, not actual words`), so it is a
function of those sizes alone: two documents whose sections have pointwise
equal content sizes get the same `word_count` no matter what the blocks
contain. -/
theorem word_count_spec :
    (∀ d : UnifiedDocument,
      d.word_count = (d.sections.map (fun s => s.content.length)).sum) ∧
    (∀ d d' : UnifiedDocument,
      d.sections.map (fun s => s.content.length) =
        d'.sections.map (fun s => s.content.length) →
      d.word_count = d'.word_count) := by
  refine ⟨fun d => rfl, ?_⟩
  intro d d' h
  simp only [UnifiedDocument.word_count, h]

/-- Witness for C6: two concrete documents whose single sections hold
different blocks of equal count have the same `word_count`. -/
theorem word_count_spec_witness :
    (UnifiedDocument.mk sampleMetadata "."
        [{ sampleSection [1] with content := [.text "alpha", .passthrough] }] []).word_count =
      (UnifiedDocument.mk sampleMetadata "."
        [{ sampleSection [2] with content := [.image "i.png" "", .text "beta"] }] []).word_count :=
  word_count_spec.2 _ _ (by decide)

/-! Lemmas about `collectOption` and the splitter. -/

theorem collectOption_map_eq_some_iff {α β : Type} (f : α → Option β) :
    ∀ (l : List α) (r : List β),
      collectOption (l.map f) = some r ↔
        List.Forall₂ (fun a b => f a = some b) l r := by
  intro l
  induction l with
  | nil =>
    intro r
    cases r <;> simp [collectOption]
  | cons a l ih =>
    intro r
    cases hfa : f a with
    | none =>
      cases r <;> simp [collectOption, hfa]
    | some b' =>
      cases r with
      | nil => simp [collectOption, hfa]
      | cons b r' =>
        simp only [List.map_cons, collectOption, Option.map_eq_some',
          List.forall₂_cons, hfa, ih, Option.some.injEq, List.cons.injEq]
        constructor
        · rintro ⟨u, hu, rfl, rfl⟩
          exact ⟨rfl, hu⟩
        · rintro ⟨rfl, hr⟩
          exact ⟨r', hr, rfl, rfl⟩

theorem collectOption_map_eq_none_iff {α β : Type} (f : α → Option β) :
    ∀ l : List α, collectOption (l.map f) = none ↔ ∃ a ∈ l, f a = none := by
  intro l
  induction l with
  | nil => simp [collectOption]
  | cons a l ih =>
    cases hfa : f a with
    | none => simp [collectOption, hfa]
    | some b' => simp [collectOption, hfa, Option.map_eq_none', ih]

theorem splitOnChar_ne_nil (sep : Char) : ∀ cs : List Char, splitOnChar sep cs ≠ [] := by
  intro cs
  induction cs with
  | nil => simp [splitOnChar]
  | cons c rest ih =>
    simp only [splitOnChar]
    by_cases h : c = sep
    · simp [h]
    · simp only [if_neg h]
      cases hr : splitOnChar sep rest <;> simp

/-- C4: `SectionNumber::parse` splits on `.` and succeeds exactly when every
component parses as a `u32`, the resulting components being the pointwise
parse results; it fails exactly when some component does not parse; on
success the depth is the number of components minus one. The claim's concrete
examples: `"01.01"` gives components `[1,1]` at depth 1, `"02.03.01"` gives
`[2,3,1]` at depth 2, and `"ab.01"` yields no value. -/
theorem sectionNumber_parse_spec :
    (SectionNumber.parse "01.01" = some ⟨[1, 1]⟩ ∧ SectionNumber.depth ⟨[1, 1]⟩ = 1) ∧
    (SectionNumber.parse "02.03.01" = some ⟨[2, 3, 1]⟩ ∧
      SectionNumber.depth ⟨[2, 3, 1]⟩ = 2) ∧
    SectionNumber.parse "ab.01" = none ∧
    (∀ s n, SectionNumber.parse s = some n ↔
      List.Forall₂ (fun c p => parseRadix10 (2 ^ 32) c = some p)
        (splitOnChar '.' s.data) n.parts) ∧
    (∀ s, SectionNumber.parse s = none ↔
      ∃ c ∈ splitOnChar '.' s.data, parseRadix10 (2 ^ 32) c = none) ∧
    (∀ s n, SectionNumber.parse s = some n →
      n.depth + 1 = (splitOnChar '.' s.data).length) := by
  have hsome : ∀ s n, SectionNumber.parse s = some n ↔
      List.Forall₂ (fun c p => parseRadix10 (2 ^ 32) c = some p)
        (splitOnChar '.' s.data) n.parts := by
    intro s n
    simp only [SectionNumber.parse, Option.map_eq_some']
    constructor
    · rintro ⟨l, hl, rfl⟩
      exact (collectOption_map_eq_some_iff _ _ _).mp hl
    · intro h
      exact ⟨n.parts, (collectOption_map_eq_some_iff _ _ _).mpr h, by cases n; rfl⟩
  refine ⟨⟨by decide, by decide⟩, ⟨by decide, by decide⟩, by decide, hsome, ?_, ?_⟩
  · intro s
    simp only [SectionNumber.parse, Option.map_eq_none']
    exact collectOption_map_eq_none_iff _ _
  · intro s n h
    have hlen := ((hsome s n).mp h).length_eq
    have hne := splitOnChar_ne_nil '.' s.data
    have : (splitOnChar '.' s.data).length ≠ 0 := by
      intro h0
      exact hne (List.length_eq_zero.mp h0)
    simp only [SectionNumber.depth, ← hlen]
    omega

/-- Witness for C4: the component-wise characterizations instantiated at
`"03.10"` and at the malformed `"a.1"`. -/
theorem sectionNumber_parse_spec_witness :
    List.Forall₂ (fun c p => parseRadix10 (2 ^ 32) c = some p)
      (splitOnChar '.' "03.10".data) [3, 10] ∧
    (∃ c ∈ splitOnChar '.' "a.1".data, parseRadix10 (2 ^ 32) c = none) ∧
    SectionNumber.depth ⟨[3, 10]⟩ + 1 = (splitOnChar '.' "03.10".data).length :=
  ⟨(sectionNumber_parse_spec.2.2.2.1 "03.10" ⟨[3, 10]⟩).mp (by decide),
   (sectionNumber_parse_spec.2.2.2.2.1 "a.1").mp (by decide),
   sectionNumber_parse_spec.2.2.2.2.2 "03.10" ⟨[3, 10]⟩ (by decide)⟩

/-- C5: `format_display_date` takes the substring before the first `T`,
splits it on `-` into year/month/day; when the three parse as integers and
the month lies in `[1, 12]` it renders `"{day} {MonthAbbrev} {year}"`, and in
every other case — month out of range, any component failing to parse, or
fewer than three components — it returns the original input unchanged, never
an error. -/
theorem format_display_date_spec :
    (∀ iso y mo d rest year month day,
      splitOnChar '-' ((splitOnChar 'T' iso.data).headD []) = y :: mo :: d :: rest →
      parseRadix10 (2 ^ 31) y = some year →
      parseRadix10 (2 ^ 64) mo = some month →
      parseRadix10 (2 ^ 32) d = some day →
      1 ≤ month → month ≤ 12 →
      format_display_date iso =
        Nat.repr day ++ " " ++ MONTHS.getD (month - 1) "" ++ " " ++ Nat.repr year) ∧
    (∀ iso y mo d rest month,
      splitOnChar '-' ((splitOnChar 'T' iso.data).headD []) = y :: mo :: d :: rest →
      parseRadix10 (2 ^ 64) mo = some month →
      ¬(1 ≤ month ∧ month ≤ 12) →
      format_display_date iso = iso) ∧
    (∀ iso y mo d rest,
      splitOnChar '-' ((splitOnChar 'T' iso.data).headD []) = y :: mo :: d :: rest →
      (parseRadix10 (2 ^ 31) y = none ∨ parseRadix10 (2 ^ 64) mo = none ∨
        parseRadix10 (2 ^ 32) d = none) →
      format_display_date iso = iso) ∧
    (∀ iso,
      (splitOnChar '-' ((splitOnChar 'T' iso.data).headD [])).length < 3 →
      format_display_date iso = iso) := by
  refine ⟨?_, ?_, ?_, ?_⟩
  · intro iso y mo d rest year month day hsplit hy hmo hd h1 h2
    simp only [format_display_date, hsplit, hy, hmo, hd]
    rw [if_pos ⟨h1, h2⟩]
  · intro iso y mo d rest month hsplit hmo hrange
    simp only [format_display_date, hsplit, hmo]
    cases hy : parseRadix10 (2 ^ 31) y
    · rfl
    · cases hd : parseRadix10 (2 ^ 32) d
      · rfl
      · simp [hrange]
  · intro iso y mo d rest hsplit hnone
    simp only [format_display_date, hsplit]
    rcases hnone with hy | hmo | hd
    · rw [hy]
    · rw [hmo]
      cases parseRadix10 (2 ^ 31) y <;> rfl
    · rw [hd]
      cases parseRadix10 (2 ^ 31) y <;> cases parseRadix10 (2 ^ 64) mo <;> rfl
  · intro iso hlen
    simp only [format_display_date]
    rcases hsplit : splitOnChar '-' ((splitOnChar 'T' iso.data).headD []) with
      _ | ⟨y, _ | ⟨mo, _ | ⟨d, rest⟩⟩⟩
    · rfl
    · rfl
    · rfl
    · rw [hsplit] at hlen
      simp at hlen
      omega

/-- Witness for C5 at the claim's own examples: a full ISO 8601 timestamp
formats to `"6 Jul 2026"`, an invalid month is returned unchanged, and the
empty string is returned unchanged. -/
theorem format_display_date_spec_witness :
    format_display_date "2026-07-06T12:34:56+00:00" = "6 Jul 2026" ∧
    format_display_date "2024-13-01" = "2024-13-01" ∧
    format_display_date "" = "" := by
  refine ⟨?_, ?_, ?_⟩
  · have h := format_display_date_spec.1 "2026-07-06T12:34:56+00:00"
      "2026".data "07".data "06".data [] 2026 7 6
      (by decide) (by decide) (by decide) (by decide) (by decide) (by decide)
    rw [h]
    decide
  · exact format_display_date_spec.2.1 "2024-13-01"
      "2024".data "13".data "01".data [] 13 (by decide) (by decide) (by decide)
  · exact format_display_date_spec.2.2.2 "" (by decide)

/-! Lemmas for the assembler. -/

theorem sectionNumber_le_iff (x y : SectionNumber) :
    SectionNumber.le x y = true ↔ lexLt x.parts y.parts = true ∨ x = y := by
  simp [SectionNumber.le, SectionNumber.lt, Bool.or_eq_true, decide_eq_true_eq]

theorem sectionLe_total : ∀ a b : MarkdownSection, sectionLe a b ∨ sectionLe b a := by
  intro a b
  rcases lexLt_total a.section_number.parts b.section_number.parts with h | h | h
  · exact Or.inl ((sectionNumber_le_iff _ _).mpr (Or.inl h))
  · exact Or.inl ((sectionNumber_le_iff _ _).mpr (Or.inr ((sectionNumber_eq_iff _ _).mpr h)))
  · exact Or.inr ((sectionNumber_le_iff _ _).mpr (Or.inl h))

theorem sectionLe_trans :
    ∀ a b c : MarkdownSection, sectionLe a b → sectionLe b c → sectionLe a c := by
  intro a b c hab hbc
  rcases (sectionNumber_le_iff _ _).mp hab with h1 | h1 <;>
    rcases (sectionNumber_le_iff _ _).mp hbc with h2 | h2
  · exact (sectionNumber_le_iff _ _).mpr (Or.inl (lexLt_trans _ _ _ h1 h2))
  · exact (sectionNumber_le_iff _ _).mpr (Or.inl (h2 ▸ h1))
  · exact (sectionNumber_le_iff _ _).mpr (Or.inl (h1 ▸ h2))
  · exact (sectionNumber_le_iff _ _).mpr (Or.inr (h1.trans h2))

theorem hasDuplicateNumbers_eq_false_iff :
    ∀ l : List MarkdownSection,
      hasDuplicateNumbers l = false ↔
        l.Pairwise (fun a b => a.section_number ≠ b.section_number)
  | [] => by simp [hasDuplicateNumbers]
  | s :: rest => by
    simp only [hasDuplicateNumbers, Bool.or_eq_false_iff, List.pairwise_cons,
      hasDuplicateNumbers_eq_false_iff rest, List.any_eq_false, decide_eq_false_iff_not,
      decide_eq_true_eq]

theorem foldl_add_section_sections :
    ∀ (l : List MarkdownSection) (b : DocumentBuilder),
      (l.foldl DocumentBuilder.add_section b).sections = b.sections ++ l := by
  intro l
  induction l with
  | nil => intro b; simp
  | cons s l ih =>
    intro b
    simp [List.foldl_cons, DocumentBuilder.add_section, ih]

theorem foldl_add_table_sections :
    ∀ (l : List TableSource) (b : DocumentBuilder),
      (l.foldl DocumentBuilder.add_table b).sections = b.sections := by
  intro l
  induction l with
  | nil => intro b; rfl
  | cons t l ih =>
    intro b
    simp [List.foldl_cons, DocumentBuilder.add_table, ih]

/-- C1: assembling sections whose `SectionNumber`s are pairwise distinct
succeeds with a document whose section list is a permutation of the input,
sorted strictly ascending by `SectionNumber`, with `section_count` equal to
the number of inputs; when any two sections carry equal `SectionNumber`s the
assembly instead fails with the build-fatal `duplicate section numbering`
error, keeping neither section and applying no tie-break. -/
theorem assemble_sorted_or_duplicate_error (md : DocumentMetadata) (root : String)
    (sections : List MarkdownSection) :
    (sections.Pairwise (fun a b => a.section_number ≠ b.section_number) →
      ∃ doc, assembleDocument md root sections = .ok doc ∧
        doc.section_count = sections.length ∧
        doc.sections.Perm sections ∧
        doc.sections.Pairwise
          (fun a b => SectionNumber.lt a.section_number b.section_number = true)) ∧
    (¬ sections.Pairwise (fun a b => a.section_number ≠ b.section_number) →
      assembleDocument md root sections = .error "duplicate section numbering") := by
  constructor
  · intro hnd
    have hdup : hasDuplicateNumbers sections = false :=
      (hasDuplicateNumbers_eq_false_iff sections).mpr hnd
    simp only [assembleDocument, hdup, Bool.false_eq_true, if_false]
    refine ⟨_, rfl, ?_, ?_, ?_⟩
    · simp only [UnifiedDocument.section_count, DocumentBuilder.build,
        foldl_add_table_sections, foldl_add_section_sections, DocumentBuilder.new,
        List.nil_append]
      exact List.length_insertionSort sectionLe sections
    · simp only [DocumentBuilder.build, foldl_add_table_sections,
        foldl_add_section_sections, DocumentBuilder.new, List.nil_append]
      exact List.perm_insertionSort sectionLe sections
    · simp only [DocumentBuilder.build, foldl_add_table_sections,
        foldl_add_section_sections, DocumentBuilder.new, List.nil_append]
      have hsorted : (List.insertionSort sectionLe sections).Pairwise sectionLe :=
        @List.sorted_insertionSort _ sectionLe _ ⟨sectionLe_total⟩ ⟨sectionLe_trans⟩ sections
      have hsymm : ∀ {x y : MarkdownSection},
          x.section_number ≠ y.section_number →
          y.section_number ≠ x.section_number :=
        fun hxy he => hxy he.symm
      have hne : (List.insertionSort sectionLe sections).Pairwise
          (fun a b => a.section_number ≠ b.section_number) :=
        ((List.perm_insertionSort sectionLe sections).pairwise_iff hsymm).mpr hnd
      refine (hsorted.and hne).imp ?_
      intro a b hab
      rcases hab with ⟨hle, hnum⟩
      rcases (sectionNumber_le_iff _ _).mp hle with h | h
      · exact h
      · exact absurd h hnum
  · intro hnd
    have hdup : hasDuplicateNumbers sections = true := by
      cases h : hasDuplicateNumbers sections
      · exact absurd ((hasDuplicateNumbers_eq_false_iff sections).mp h) hnd
      · rfl
    simp [assembleDocument, hdup]

/-- Witness for C1: two concrete sections numbered `2` and `1` have distinct
numbers, and the assembler succeeds on them with both sections kept, counted
and strictly sorted. -/
theorem assemble_sorted_or_duplicate_error_witness :
    List.Pairwise (fun a b => a.section_number ≠ b.section_number)
      [sampleSection [2], sampleSection [1]] ∧
    ∃ doc,
      assembleDocument sampleMetadata "." [sampleSection [2], sampleSection [1]] =
        .ok doc ∧
      doc.section_count = [sampleSection [2], sampleSection [1]].length ∧
      doc.sections.Perm [sampleSection [2], sampleSection [1]] ∧
      doc.sections.Pairwise
        (fun a b => SectionNumber.lt a.section_number b.section_number = true) :=
  have hp : List.Pairwise (fun a b => a.section_number ≠ b.section_number)
      [sampleSection [2], sampleSection [1]] := by
    simp [List.pairwise_cons, sampleSection]
  ⟨hp, (assemble_sorted_or_duplicate_error sampleMetadata "."
      [sampleSection [2], sampleSection [1]]).1 hp⟩

/-! Decimal rendering: `Nat.repr` produces exactly the big-endian digit
characters, which the component parser inverts. -/

theorem digitChar_spec (d : Nat) (hd : d < 10) :
    (Nat.digitChar d).isDigit = true ∧ Nat.digitChar d ≠ '+' ∧
      (Nat.digitChar d).toNat - 48 = d := by
  interval_cases d <;> exact ⟨by decide, by decide, by decide⟩

theorem toDigitsCore_eq_decChars :
    ∀ (fuel n : Nat) (acc : List Char), 0 < fuel → n < 10 ^ fuel →
      Nat.toDigitsCore 10 fuel n acc = decChars n ++ acc := by
  intro fuel
  induction fuel with
  | zero => intro n acc h _; simp at h
  | succ f ih =>
    intro n acc _ hn
    rw [show Nat.toDigitsCore 10 (f + 1) n acc =
        (if n / 10 = 0 then Nat.digitChar (n % 10) :: acc
         else Nat.toDigitsCore 10 f (n / 10) (Nat.digitChar (n % 10) :: acc)) from by
      simp [Nat.toDigitsCore]]
    by_cases hdiv : n / 10 = 0
    · rw [if_pos hdiv]
      have hlt : n < 10 := (Nat.div_eq_zero_iff (by norm_num)).mp hdiv
      by_cases h0 : n = 0
      · subst h0
        rfl
      · have hpos : 0 < n := Nat.pos_of_ne_zero h0
        have hdig : Nat.digits 10 n = [n] := by
          rw [Nat.digits_def' (by norm_num : (1 : ℕ) < 10) hpos,
            Nat.mod_eq_of_lt hlt, hdiv]
          simp
        simp [decChars, h0, hdig, Nat.mod_eq_of_lt hlt]
    · rw [if_neg hdiv]
      have hge : 10 ≤ n := by
        by_contra hlt
        exact hdiv ((Nat.div_eq_zero_iff (by norm_num)).mpr (by omega))
      have hfpos : 0 < f := by
        by_contra hf
        have hf0 : f = 0 := by omega
        subst hf0
        simp at hn
        omega
      have hlt' : n / 10 < 10 ^ f := by
        rw [Nat.div_lt_iff_lt_mul (by norm_num)]
        calc n < 10 ^ (f + 1) := hn
          _ = 10 ^ f * 10 := by ring
      rw [ih (n / 10) (Nat.digitChar (n % 10) :: acc) hfpos hlt']
      have hstep : decChars n = decChars (n / 10) ++ [Nat.digitChar (n % 10)] := by
        rw [decChars, decChars, if_neg (by omega : ¬n = 0), if_neg hdiv,
          Nat.digits_def' (by norm_num : (1 : ℕ) < 10) (by omega : 0 < n)]
        simp
      rw [hstep, List.append_assoc]
      simp

theorem repr_data_eq_decChars (n : Nat) : (Nat.repr n).data = decChars n := by
  show (Nat.toDigits 10 n).asString.data = decChars n
  rw [show Nat.toDigits 10 n = Nat.toDigitsCore 10 (n + 1) n [] from rfl,
    toDigitsCore_eq_decChars (n + 1) n [] (Nat.succ_pos n)
      (lt_of_lt_of_le (Nat.lt_pow_self (by norm_num) n)
        (Nat.pow_le_pow_right (by norm_num) (Nat.le_succ n)))]
  simp [List.asString]

theorem decChars_mem (n : Nat) : ∀ c ∈ decChars n, c.isDigit = true ∧ c ≠ '+' := by
  intro c hc
  rw [decChars] at hc
  by_cases h0 : n = 0
  · rw [if_pos h0] at hc
    simp only [List.mem_singleton] at hc
    subst hc
    exact ⟨by decide, by decide⟩
  · rw [if_neg h0] at hc
    simp only [List.mem_reverse, List.mem_map] at hc
    obtain ⟨d, hd, rfl⟩ := hc
    have hdlt : d < 10 := Nat.digits_lt_base (by norm_num) hd
    exact ⟨(digitChar_spec d hdlt).1, (digitChar_spec d hdlt).2.1⟩

theorem decChars_ne_nil (n : Nat) : decChars n ≠ [] := by
  rw [decChars]
  by_cases h0 : n = 0
  · simp [h0]
  · rw [if_neg h0]
    simp [Nat.digits_ne_nil_iff_ne_zero, h0]

theorem foldl_decimal :
    ∀ L : List Nat, (∀ d ∈ L, d < 10) →
      ∀ a, ((L.map Nat.digitChar).reverse).foldl
          (fun acc c => 10 * acc + (c.toNat - 48)) a =
        a * 10 ^ L.length + Nat.ofDigits 10 L := by
  intro L
  induction L with
  | nil =>
    intro _ a
    simp [Nat.ofDigits_nil]
  | cons d L ih =>
    intro hd a
    have hdlt : d < 10 := hd d (List.mem_cons_self d L)
    simp only [List.map_cons, List.reverse_cons, List.foldl_append, List.foldl_cons,
      List.foldl_nil]
    rw [ih (fun x hx => hd x (List.mem_cons_of_mem _ hx)) a,
      (digitChar_spec d hdlt).2.2, Nat.ofDigits_cons, List.length_cons]
    ring

theorem digitsVal_decChars (n : Nat) : digitsVal (decChars n) = n := by
  by_cases h0 : n = 0
  · subst h0
    decide
  · rw [decChars, if_neg h0, digitsVal,
      foldl_decimal (Nat.digits 10 n)
        (fun d hd => Nat.digits_lt_base (by norm_num) hd) 0]
    simp [Nat.ofDigits_digits]

theorem parseRadix10_repr (bound n : Nat) (h : n < bound) :
    parseRadix10 bound (Nat.repr n).data = some n := by
  rw [repr_data_eq_decChars]
  have hplus : ¬(decChars n).head? = some '+' := by
    cases hd : decChars n with
    | nil => exact absurd hd (decChars_ne_nil n)
    | cons c cs =>
      have hcmem : c ∈ decChars n := by
        rw [hd]
        exact List.mem_cons_self c cs
      have hcne := (decChars_mem n c hcmem).2
      simp [hcne]
  have hall : (decChars n).all Char.isDigit = true := by
    rw [List.all_eq_true]
    intro c hc
    exact (decChars_mem n c hc).1
  simp only [parseRadix10, if_neg hplus, if_neg (decChars_ne_nil n), hall,
    if_true, digitsVal_decChars, if_pos h]

/-! Splitting inverts joining when the separator is fresh. -/

theorem splitOnChar_of_not_mem (sep : Char) :
    ∀ cs : List Char, sep ∉ cs → splitOnChar sep cs = [cs] := by
  intro cs
  induction cs with
  | nil => intro _; rfl
  | cons c rest ih =>
    intro h
    have hc : ¬c = sep := fun he => h (he ▸ List.mem_cons_self c rest)
    have hr : sep ∉ rest := fun hm => h (List.mem_cons_of_mem c hm)
    simp [splitOnChar, hc, ih hr]

theorem splitOnChar_append (sep : Char) :
    ∀ x rest : List Char, sep ∉ x →
      splitOnChar sep (x ++ sep :: rest) = x :: splitOnChar sep rest := by
  intro x
  induction x with
  | nil =>
    intro rest _
    simp [splitOnChar]
  | cons c x ih =>
    intro rest h
    have hc : ¬c = sep := fun he => h (he ▸ List.mem_cons_self c x)
    have hx : sep ∉ x := fun hm => h (List.mem_cons_of_mem c hm)
    simp only [List.cons_append, splitOnChar, if_neg hc, List.append_eq]
    rw [ih rest hx]

theorem splitOnChar_joinSep (sep : Char) :
    ∀ L : List (List Char), L ≠ [] → (∀ l ∈ L, sep ∉ l) →
      splitOnChar sep (joinSep sep L) = L := by
  intro L
  induction L with
  | nil => intro h _; exact absurd rfl h
  | cons x L ih =>
    intro _ hmem
    cases L with
    | nil => exact splitOnChar_of_not_mem sep x (hmem x (List.mem_cons_self x []))
    | cons y L' =>
      rw [show joinSep sep (x :: y :: L') = x ++ sep :: joinSep sep (y :: L') from rfl,
        splitOnChar_append sep x _ (hmem x (List.mem_cons_self x (y :: L'))),
        ih (by simp) (fun l hl => hmem l (List.mem_cons_of_mem x hl))]

theorem dot_not_mem_decChars (n : Nat) : '.' ∉ decChars n := by
  intro h
  have := (decChars_mem n _ h).1
  exact absurd this (by decide)

/-- C7 counterexample: the `Display` implementation renders components in
minimal decimal digits, so it does not reproduce the zero-padded canonical
filename-prefix form — `"01.02"` (the numeric prefix of
`01.02_overview.md`) parses and then displays as `"1.2"`, not `"01.02"`. -/
theorem display_drops_leading_zeros :
    (SectionNumber.parse "01.02").map SectionNumber.display = some "1.2" ∧
    "1.2" ≠ "01.02" := by
  decide

/-- C7 (amended): `Display` renders the components dot-joined in minimal
decimal form, mirroring the canonical prefix only up to leading zeros: for
every section number (non-empty parts, each in `u32` range), displaying and
re-parsing returns exactly the same section number, and hence
`display (parse s) = s` for every string `s` in the image of `display` —
dot-separated components with no leading zeros or signs. -/
theorem display_roundtrip (x : SectionNumber) (hne : x.parts ≠ [])
    (hbound : ∀ p ∈ x.parts, p < 2 ^ 32) :
    SectionNumber.parse x.display = some x ∧
    (SectionNumber.parse x.display).map SectionNumber.display = some x.display := by
  have hdata : x.display.data = joinSep '.' (x.parts.map fun p => (Nat.repr p).data) := rfl
  have hsplit : splitOnChar '.' x.display.data =
      x.parts.map fun p => (Nat.repr p).data := by
    rw [hdata]
    apply splitOnChar_joinSep
    · simpa using hne
    · intro l hl
      obtain ⟨p, _, rfl⟩ := List.mem_map.mp hl
      rw [repr_data_eq_decChars]
      exact dot_not_mem_decChars p
  have hparse : SectionNumber.parse x.display = some x := by
    rw [SectionNumber.parse, hsplit, List.map_map]
    have hcoll : collectOption
        (x.parts.map (parseRadix10 (2 ^ 32) ∘ fun p => (Nat.repr p).data)) =
        some x.parts := by
      rw [collectOption_map_eq_some_iff, List.forall₂_same]
      intro p hp
      exact parseRadix10_repr _ p (hbound p hp)
    rw [hcoll]
    rfl
  exact ⟨hparse, by rw [hparse]; rfl⟩

/-- Witness for C7 (amended) at `⟨[1, 2]⟩`: display gives `"1.2"` and
re-parsing returns the same section number. -/
theorem display_roundtrip_witness :
    SectionNumber.display ⟨[1, 2]⟩ = "1.2" ∧
    SectionNumber.parse (SectionNumber.display ⟨[1, 2]⟩) = some ⟨[1, 2]⟩ :=
  ⟨by decide, (display_roundtrip ⟨[1, 2]⟩ (by decide) (by decide)).1⟩

/-! Lemmas about the metadata deserializer. -/

theorem lineKey_assign {line : List Char} {k : String} {v : TomlValue}
    (h : classifyLine line = .assign k v) : lineKey line = some k := by
  simp only [lineKey, h]

theorem applyAssign_preserve (m : SectionMetadata) (k : String) (v : TomlValue)
    (m' : SectionMetadata) (h : applyAssign m k v = some m') :
    (¬k = "section_id" → m'.section_id = m.section_id) ∧
    (¬k = "traced_ids" → m'.traced_ids = m.traced_ids) ∧
    (¬k = "generate_section_id_to_traced_ids_table" →
      m'.generate_section_id_to_traced_ids_table =
        m.generate_section_id_to_traced_ids_table) ∧
    (¬k = "generate_traced_ids_to_section_ids_table" →
      m'.generate_traced_ids_to_section_ids_table =
        m.generate_traced_ids_to_section_ids_table) := by
  unfold applyAssign at h
  by_cases h1 : k = "section_id"
  · rw [if_pos h1] at h
    cases v with
    | str s =>
      simp only [Option.some.injEq] at h
      subst h
      exact ⟨fun hk => absurd h1 hk, fun _ => rfl, fun _ => rfl, fun _ => rfl⟩
    | arr l => simp at h
    | boolean b => simp at h
    | int n => simp at h
  · rw [if_neg h1] at h
    by_cases h2 : k = "traced_ids"
    · rw [if_pos h2] at h
      cases v with
      | arr l =>
        simp only [Option.some.injEq] at h
        subst h
        exact ⟨fun _ => rfl, fun hk => absurd h2 hk, fun _ => rfl, fun _ => rfl⟩
      | str s => simp at h
      | boolean b => simp at h
      | int n => simp at h
    · rw [if_neg h2] at h
      by_cases h3 : k = "generate_section_id_to_traced_ids_table"
      · rw [if_pos h3] at h
        cases v with
        | boolean b =>
          simp only [Option.some.injEq] at h
          subst h
          exact ⟨fun _ => rfl, fun _ => rfl, fun hk => absurd h3 hk, fun _ => rfl⟩
        | str s => simp at h
        | arr l => simp at h
        | int n => simp at h
      · rw [if_neg h3] at h
        by_cases h4 : k = "generate_traced_ids_to_section_ids_table"
        · rw [if_pos h4] at h
          cases v with
          | boolean b =>
            simp only [Option.some.injEq] at h
            subst h
            exact ⟨fun _ => rfl, fun _ => rfl, fun _ => rfl, fun hk => absurd h4 hk⟩
          | str s => simp at h
          | arr l => simp at h
          | int n => simp at h
        · rw [if_neg h4] at h
          simp only [Option.some.injEq] at h
          subst h
          exact ⟨fun _ => rfl, fun _ => rfl, fun _ => rfl, fun _ => rfl⟩

theorem applyAssign_unknown (m : SectionMetadata) (k : String) (v : TomlValue)
    (h1 : ¬k = "section_id") (h2 : ¬k = "traced_ids")
    (h3 : ¬k = "generate_section_id_to_traced_ids_table")
    (h4 : ¬k = "generate_traced_ids_to_section_ids_table") :
    applyAssign m k v = some m := by
  unfold applyAssign
  rw [if_neg h1, if_neg h2, if_neg h3, if_neg h4]

theorem processLines_preserve {α : Type} (K : String) (f : SectionMetadata → α)
    (hf : ∀ m k v m', ¬k = K → applyAssign m k v = some m' → f m' = f m) :
    ∀ (lines : List (List Char)) (m : SectionMetadata) (seen : List String)
      (m' : SectionMetadata),
      (∀ line ∈ lines, lineKey line ≠ some K) →
      processLines lines m seen = .ok m' → f m' = f m := by
  intro lines
  induction lines with
  | nil =>
    intro m seen m' _ h
    simp only [processLines, Except.ok.injEq] at h
    rw [h]
  | cons line rest ih =>
    intro m seen m' hkey h
    cases hcl : classifyLine line with
    | blank =>
      simp only [processLines, hcl] at h
      exact ih m seen m' (fun l hl => hkey l (List.mem_cons_of_mem line hl)) h
    | malformed =>
      simp only [processLines, hcl] at h
      exact absurd h (by simp)
    | assign key v =>
      have hkne : ¬key = K := by
        intro he
        exact hkey line (List.mem_cons_self line rest) (he ▸ lineKey_assign hcl)
      simp only [processLines, hcl] at h
      by_cases hseen : key ∈ seen
      · rw [if_pos hseen] at h
        simp at h
      · rw [if_neg hseen] at h
        cases happ : applyAssign m key v with
        | none =>
          rw [happ] at h
          simp at h
        | some m₁ =>
          rw [happ] at h
          have hrec := ih m₁ (key :: seen) m'
            (fun l hl => hkey l (List.mem_cons_of_mem line hl)) h
          rw [hrec, hf m key v m₁ hkne happ]

/-- C8: `SectionMetadata::parse` requires no key: parsing the empty string
succeeds and yields the all-default record (`section_id` and `traced_ids`
absent, both generation flags `false`, `has_traceability` and
`requests_table_generation` both `false`), and in any successful parse a
field whose key is never assigned keeps its documented default. -/
theorem metadata_defaults_spec :
    (SectionMetadata.parse "" = .ok SectionMetadata.default ∧
     SectionMetadata.default.section_id = none ∧
     SectionMetadata.default.traced_ids = none ∧
     SectionMetadata.default.generate_section_id_to_traced_ids_table = false ∧
     SectionMetadata.default.generate_traced_ids_to_section_ids_table = false ∧
     SectionMetadata.default.has_traceability = false ∧
     SectionMetadata.default.requests_table_generation = false) ∧
    (∀ content m, SectionMetadata.parse content = .ok m →
      ((∀ line ∈ splitOnChar '\n' content.data, lineKey line ≠ some "section_id") →
        m.section_id = none) ∧
      ((∀ line ∈ splitOnChar '\n' content.data, lineKey line ≠ some "traced_ids") →
        m.traced_ids = none) ∧
      ((∀ line ∈ splitOnChar '\n' content.data,
          lineKey line ≠ some "generate_section_id_to_traced_ids_table") →
        m.generate_section_id_to_traced_ids_table = false) ∧
      ((∀ line ∈ splitOnChar '\n' content.data,
          lineKey line ≠ some "generate_traced_ids_to_section_ids_table") →
        m.generate_traced_ids_to_section_ids_table = false)) := by
  refine ⟨⟨rfl, rfl, rfl, rfl, rfl, rfl, rfl⟩, ?_⟩
  intro content m h
  have h' : processLines (splitOnChar '\n' content.data) SectionMetadata.default [] =
      .ok m := h
  refine ⟨?_, ?_, ?_, ?_⟩ <;> intro hnone
  · exact processLines_preserve "section_id" (fun r => r.section_id)
      (fun m k v m' hk happ => (applyAssign_preserve m k v m' happ).1 hk)
      _ _ _ _ hnone h'
  · exact processLines_preserve "traced_ids" (fun r => r.traced_ids)
      (fun m k v m' hk happ => (applyAssign_preserve m k v m' happ).2.1 hk)
      _ _ _ _ hnone h'
  · exact processLines_preserve "generate_section_id_to_traced_ids_table"
      (fun r => r.generate_section_id_to_traced_ids_table)
      (fun m k v m' hk happ => (applyAssign_preserve m k v m' happ).2.2.1 hk)
      _ _ _ _ hnone h'
  · exact processLines_preserve "generate_traced_ids_to_section_ids_table"
      (fun r => r.generate_traced_ids_to_section_ids_table)
      (fun m k v m' hk happ => (applyAssign_preserve m k v m' happ).2.2.2 hk)
      _ _ _ _ hnone h'

/-- Witness for C8: a parse whose input assigns only an unknown key leaves
`section_id` at its default. -/
theorem metadata_defaults_spec_witness :
    SectionMetadata.parse "unknown_key = 1" = .ok SectionMetadata.default ∧
    SectionMetadata.default.section_id = none :=
  ⟨rfl, (metadata_defaults_spec.2 "unknown_key = 1" SectionMetadata.default rfl).1
    (by decide)⟩

theorem processLines_seen_congr :
    ∀ (lines : List (List Char)) (m : SectionMetadata) (seen₁ seen₂ : List String),
      (∀ key v line, line ∈ lines → classifyLine line = .assign key v →
        (key ∈ seen₁ ↔ key ∈ seen₂)) →
      processLines lines m seen₁ = processLines lines m seen₂ := by
  intro lines
  induction lines with
  | nil => intro m s1 s2 _; rfl
  | cons line rest ih =>
    intro m s1 s2 hiff
    cases hcl : classifyLine line with
    | blank =>
      simp only [processLines, hcl]
      exact ih m s1 s2
        (fun key v l hl hc => hiff key v l (List.mem_cons_of_mem _ hl) hc)
    | malformed => simp only [processLines, hcl]
    | assign key v =>
      simp only [processLines, hcl]
      have hk : key ∈ s1 ↔ key ∈ s2 :=
        hiff key v line (List.mem_cons_self _ _) hcl
      by_cases h1 : key ∈ s1
      · rw [if_pos h1, if_pos (hk.mp h1)]
      · rw [if_neg h1, if_neg (fun h2 => h1 (hk.mpr h2))]
        cases happ : applyAssign m key v with
        | none => rfl
        | some m₁ =>
          exact ih m₁ (key :: s1) (key :: s2) (fun key' v' l hl hc => by
            simpa [List.mem_cons] using
              or_congr Iff.rfl (hiff key' v' l (List.mem_cons_of_mem _ hl) hc))

theorem processLines_insert_unknown :
    ∀ (pre post : List (List Char)) (kline : List Char) (k : String) (v : TomlValue)
      (m : SectionMetadata) (seen : List String),
      classifyLine kline = .assign k v →
      ¬k = "section_id" → ¬k = "traced_ids" →
      ¬k = "generate_section_id_to_traced_ids_table" →
      ¬k = "generate_traced_ids_to_section_ids_table" →
      k ∉ seen →
      (∀ line ∈ pre ++ post, lineKey line ≠ some k) →
      processLines (pre ++ kline :: post) m seen = processLines (pre ++ post) m seen := by
  intro pre
  induction pre with
  | nil =>
    intro post kline k v m seen hcl h1 h2 h3 h4 hks hkey
    simp only [List.nil_append, processLines, hcl]
    rw [if_neg hks, applyAssign_unknown m k v h1 h2 h3 h4]
    apply processLines_seen_congr
    intro key v' line hl hc
    have hkne : key ≠ k := by
      intro he
      exact hkey line (by simpa using hl) (he ▸ lineKey_assign hc)
    simp [List.mem_cons, hkne]
  | cons line pre' ih =>
    intro post kline k v m seen hcl h1 h2 h3 h4 hks hkey
    cases hcl2 : classifyLine line with
    | blank =>
      simp only [List.cons_append, processLines, hcl2]
      exact ih post kline k v m seen hcl h1 h2 h3 h4 hks
        (fun l hl => hkey l (List.mem_cons_of_mem _ hl))
    | malformed => simp only [List.cons_append, processLines, hcl2]
    | assign key v' =>
      simp only [List.cons_append, processLines, hcl2]
      by_cases hk : key ∈ seen
      · rw [if_pos hk, if_pos hk]
      · rw [if_neg hk, if_neg hk]
        cases happ : applyAssign m key v' with
        | none => rfl
        | some m₁ =>
          have hkne : key ≠ k := by
            intro he
            exact hkey line (List.mem_cons_self _ _) (he ▸ lineKey_assign hcl2)
          refine ih post kline k v m₁ (key :: seen) hcl h1 h2 h3 h4 ?_
            (fun l hl => hkey l (List.mem_cons_of_mem _ hl))
          simp only [List.mem_cons, not_or]
          exact ⟨fun he => hkne he.symm, hks⟩

/-- C10: the deserializer behind `SectionMetadata::parse` ignores unknown
keys: inserting a well-formed assignment line whose key is none of the four
known fields (and collides with no other key of the input) anywhere into the
input changes nothing — the parse succeeds or fails exactly as before and
every known field is populated as if the unknown line were absent; stated
both over the line-level deserializer and over `SectionMetadata.parse` on
the joined text. -/
theorem unknown_keys_ignored :
    (∀ (pre post : List (List Char)) (kline : List Char) (k : String) (v : TomlValue),
      classifyLine kline = .assign k v →
      ¬k = "section_id" → ¬k = "traced_ids" →
      ¬k = "generate_section_id_to_traced_ids_table" →
      ¬k = "generate_traced_ids_to_section_ids_table" →
      (∀ line ∈ pre ++ post, lineKey line ≠ some k) →
      processLines (pre ++ kline :: post) SectionMetadata.default [] =
        processLines (pre ++ post) SectionMetadata.default []) ∧
    (∀ (pre post : List (List Char)) (kline : List Char) (k : String) (v : TomlValue),
      classifyLine kline = .assign k v →
      ¬k = "section_id" → ¬k = "traced_ids" →
      ¬k = "generate_section_id_to_traced_ids_table" →
      ¬k = "generate_traced_ids_to_section_ids_table" →
      (∀ line ∈ pre ++ post, lineKey line ≠ some k) →
      (∀ line ∈ pre ++ kline :: post, '\n' ∉ line) →
      pre ++ post ≠ [] →
      SectionMetadata.parse (String.mk (joinSep '\n' (pre ++ kline :: post))) =
        SectionMetadata.parse (String.mk (joinSep '\n' (pre ++ post)))) := by
  have hmain : ∀ (pre post : List (List Char)) (kline : List Char) (k : String)
      (v : TomlValue),
      classifyLine kline = .assign k v →
      ¬k = "section_id" → ¬k = "traced_ids" →
      ¬k = "generate_section_id_to_traced_ids_table" →
      ¬k = "generate_traced_ids_to_section_ids_table" →
      (∀ line ∈ pre ++ post, lineKey line ≠ some k) →
      processLines (pre ++ kline :: post) SectionMetadata.default [] =
        processLines (pre ++ post) SectionMetadata.default [] := by
    intro pre post kline k v hcl h1 h2 h3 h4 hkey
    exact processLines_insert_unknown pre post kline k v SectionMetadata.default []
      hcl h1 h2 h3 h4 (by simp) hkey
  refine ⟨hmain, ?_⟩
  intro pre post kline k v hcl h1 h2 h3 h4 hkey hnl hne
  have hne1 : pre ++ kline :: post ≠ [] := by
    cases pre <;> simp
  have hsplit1 : splitOnChar '\n' (joinSep '\n' (pre ++ kline :: post)) =
      pre ++ kline :: post :=
    splitOnChar_joinSep '\n' _ hne1 hnl
  have hsplit2 : splitOnChar '\n' (joinSep '\n' (pre ++ post)) = pre ++ post := by
    refine splitOnChar_joinSep '\n' _ hne ?_
    intro l hl
    refine hnl l ?_
    rcases List.mem_append.mp hl with h | h
    · exact List.mem_append.mpr (Or.inl h)
    · exact List.mem_append.mpr (Or.inr (List.mem_cons_of_mem _ h))
  show processLines (splitOnChar '\n' (joinSep '\n' (pre ++ kline :: post)))
      SectionMetadata.default [] =
    processLines (splitOnChar '\n' (joinSep '\n' (pre ++ post)))
      SectionMetadata.default []
  rw [hsplit1, hsplit2]
  exact hmain pre post kline k v hcl h1 h2 h3 h4 hkey

/-- Witness for C10: inserting the unknown-key line `custom_key = 42` after a
`section_id` assignment leaves the deserialization result unchanged, both at
the line level and through `SectionMetadata.parse` on the joined text. -/
theorem unknown_keys_ignored_witness :
    processLines (["section_id = \"A\"".data] ++ "custom_key = 42".data :: [])
        SectionMetadata.default [] =
      processLines (["section_id = \"A\"".data] ++ []) SectionMetadata.default [] ∧
    SectionMetadata.parse
        (String.mk (joinSep '\n' (["section_id = \"A\"".data] ++
          "custom_key = 42".data :: []))) =
      SectionMetadata.parse
        (String.mk (joinSep '\n' (["section_id = \"A\"".data] ++ []))) :=
  ⟨unknown_keys_ignored.1 ["section_id = \"A\"".data] [] "custom_key = 42".data
      "custom_key" (.int 42) (by decide) (by decide) (by decide) (by decide)
      (by decide) (by decide),
   unknown_keys_ignored.2 ["section_id = \"A\"".data] [] "custom_key = 42".data
      "custom_key" (.int 42) (by decide) (by decide) (by decide) (by decide)
      (by decide) (by decide) (by decide) (by decide)⟩

end Sysdoc
